import Mathlib

/-!
# Verification of the ATS_Prototype repository

Shallow embedding of the Python sources `ats_engine.py`, `app.py` and the
Streamlit page scripts.  Text is modelled as `List Char`; Python's `in`
substring test becomes the infix relation `<:+:` on character lists, and
`str.lower` becomes a character-wise `Char.toLower` map.  Calls to the hosted
OpenAI endpoints (chat completions, embeddings) and to library routines
(`sklearn.metrics.pairwise.cosine_similarity`, `pypdf`) are modelled as
function parameters ("oracles"); floating-point scores are modelled as
rationals.  Fallible endpoint calls return `Except`/`Option` values.
-/

namespace ATS

/-- Python `str.lower()` (character-wise; the sources only use ASCII). -/
def lowerL (s : List Char) : List Char := s.map Char.toLower

/-- Python truthiness test `not s or not s.strip()`: the string is empty or
whitespace-only. -/
def blank (s : List Char) : Bool := s.all Char.isWhitespace

/-- Python `s.split('\n')`: split a character list at newline characters.
`splitNl []` is `[[]]`, matching `"".split('\n') == ['']`. -/
def splitNl : List Char → List (List Char)
  | [] => [[]]
  | c :: cs =>
    if c = '\n' then [] :: splitNl cs
    else
      match splitNl cs with
      | [] => [[c]]
      | l :: ls => (c :: l) :: ls

/-- Python `'\n'.join(lines)`. -/
def joinNl : List (List Char) → List Char
  | [] => []
  | [l] => l
  | l :: ls => l ++ '\n' :: joinNl ls

/-!
## Legal compliance module (`src/app.py`, class `FeedbackComplianceChecker`)
-/

/-- `FeedbackComplianceChecker.prohibited_terms` (`src/app.py` lines 27-60),
in the order the set literal is written. -/
def prohibited_terms : List (List Char) :=
  ["age", "young", "old", "mature", "recent graduate", "retirement",
   "youthful", "elderly", "senior", "junior", "experienced professional",
   "native", "foreign", "accent", "immigrant", "citizenship",
   "visa", "work authorization", "country of origin",
   "he", "she", "his", "her", "him", "gender", "man", "woman",
   "masculine", "feminine", "lady", "gentleman",
   "disability", "handicap", "disabled", "able-bodied", "medical condition",
   "health", "accommodation",
   "culture fit", "personality", "enthusiasm", "attitude", "energy level",
   "passion", "motivated", "team player", "ambitious",
   "family", "children", "married", "single", "parent", "spouse",
   "maternity", "paternity",
   "religious", "religion", "faith", "church", "mosque", "temple",
   "diverse", "diversity", "minority", "majority",
   "pregnant", "pregnancy", "veteran", "military service"].map String.toList

/-- The phrases of `FeedbackComplianceChecker.allowed_contexts`
(`src/app.py` lines 63-66), flattened over `.values()` in dict order. -/
def allowed_context_terms : List (List Char) :=
  ["years of experience", "work experience",
   "native code", "native app", "native development"].map String.toList

/-- The high-severity subset used by `check_compliance`
(`src/app.py` lines 99-100). -/
def high_severity_terms : List (List Char) :=
  ["age", "gender", "disability", "race", "religion",
   "pregnant", "family", "married", "children"].map String.toList

/-- `term` occurs in the lowercased feedback text and is not excused by the
allowed-context rule of `check_compliance`: no allowed-context phrase both
occurs in the lowercased text and contains `term`. -/
def unexcused (term text : List Char) : Prop :=
  term <:+: lowerL text ∧
    ¬ ∃ ctx ∈ allowed_context_terms, ctx <:+: lowerL text ∧ term <:+: ctx

instance (term text : List Char) : Decidable (unexcused term text) := by
  unfold unexcused
  infer_instance

/-- The dict returned by `FeedbackComplianceChecker.check_compliance`. -/
structure ComplianceResult where
  compliant : Bool
  violations : List (List Char)
  severity : List Char
  recommendation : List Char
deriving DecidableEq

/-- `FeedbackComplianceChecker.check_compliance` (`src/app.py` lines 68-119),
parametrised by the iteration order `terms` of the Python set
`prohibited_terms` (set iteration order is not fixed across interpreter
runs; any run iterates some permutation of the terms). -/
def check_compliance_ord (terms : List (List Char)) (feedback_text : List Char) :
    ComplianceResult :=
  let feedback_lower := lowerL feedback_text
  let violations := terms.filter fun term =>
    decide (term <:+: feedback_lower) &&
      ! (allowed_context_terms.any fun ctx =>
          decide (ctx <:+: feedback_lower) && decide (term <:+: ctx))
  let severity :=
    if violations.isEmpty then "none".toList
    else if violations.any (fun t => decide (t ∈ high_severity_terms)) then "high".toList
    else "low".toList
  let recommendation :=
    if severity = "none".toList then
      "Feedback passed compliance check.".toList
    else if severity = "low".toList then
      "Review feedback for soft skills language. Consider focusing only on technical qualifications.".toList
    else
      "CRITICAL: Feedback contains prohibited discriminatory language. Do not send. Regenerate with stricter constraints.".toList
  ⟨violations.isEmpty, violations, severity, recommendation⟩

/-- The per-term test of the `check_compliance` loop: `term` occurs in the
lowercased text and no allowed-context phrase excuses it. -/
def violCond (text term : List Char) : Bool :=
  decide (term <:+: lowerL text) &&
    ! (allowed_context_terms.any fun ctx =>
        decide (ctx <:+: lowerL text) && decide (term <:+: ctx))

/-- The severity computed by `check_compliance` from a violations list. -/
def severityOf (violations : List (List Char)) : List Char :=
  if violations.isEmpty then "none".toList
  else if violations.any (fun t => decide (t ∈ high_severity_terms)) then "high".toList
  else "low".toList

/-- `check_compliance` with the terms iterated in written order. -/
def check_compliance (feedback_text : List Char) : ComplianceResult :=
  check_compliance_ord prohibited_terms feedback_text

/-- The fixed comment line `sanitize_feedback` substitutes for a line that
contains a prohibited term (`src/app.py` line 137). -/
def removedLineComment : List Char :=
  "<!-- Line removed for compliance -->".toList

/-- The loop body of `sanitize_feedback` (`src/app.py` lines 129-137): a line
containing a prohibited term (in its lowercased form) is replaced by the fixed
comment, any other line is kept. -/
def sanitizeLine (line : List Char) : List Char :=
  if prohibited_terms.any (fun term => decide (term <:+: lowerL line)) then
    removedLineComment
  else line

/-- `FeedbackComplianceChecker.sanitize_feedback` (`src/app.py` lines 121-139):
split into lines, replace each line containing a prohibited term by the fixed
comment, and rejoin with newlines. -/
def sanitize_feedback (feedback_text : List Char) : List Char :=
  joinNl ((splitNl feedback_text).map sanitizeLine)

/-!
## Embedding and ranking engine (`src/ats_engine.py`)

The OpenAI embeddings endpoint is an oracle `emb : List Char → Option Emb`
(`None` covers API errors and empty response data, exactly the cases in which
`get_embedding` returns `None` after a call); `sklearn`'s
`cosine_similarity` on the returned vectors is an oracle
`cos : Emb → Emb → ℚ` (floating-point scores modelled as rationals).
Instrumented variants additionally count the endpoint calls made.
-/

/-- Embedding vectors as returned by the hosted endpoint. -/
def Emb : Type := List ℚ

/-- Python `str.strip()`. -/
def stripL (s : List Char) : List Char :=
  (((s.dropWhile Char.isWhitespace).reverse).dropWhile Char.isWhitespace).reverse

/-- The text preprocessing of `get_embedding` (`src/ats_engine.py` lines
149-151): replace newlines by spaces, strip, truncate to 8000 characters. -/
def prepEmbText (s : List Char) : List Char :=
  (stripL (s.map fun c => if c = '\n' then ' ' else c)).take 8000

/-- `get_embedding` (`src/ats_engine.py` lines 135-168), instrumented with the
number of embedding-endpoint calls it performs: blank text returns `None`
without calling the endpoint; otherwise one call is made and its outcome
(vector, or `None` on API error / empty data) is returned. -/
def get_embedding_instr (emb : List Char → Option Emb) (text : List Char) :
    Option Emb × Nat :=
  if blank text then (none, 0)
  else (emb (prepEmbText text), 1)

/-- `get_embedding`: the value returned to the caller. -/
def get_embedding (emb : List Char → Option Emb) (text : List Char) : Option Emb :=
  (get_embedding_instr emb text).1

/-- A Python value passed as a candidate record to `rank_candidates`: either a
dict whose `name`/`resume` keys may each be present or absent, or a non-dict
value. -/
inductive CandRecord where
  | dict (name : Option (List Char)) (resume : Option (List Char))
  | nondict
deriving DecidableEq

/-- The scored-candidate dicts built by `rank_candidates`. -/
structure Ranked where
  name : List Char
  score : ℚ
  resume : List Char
deriving DecidableEq

/-- A candidate record is a dict with both a `name` and a `resume` key
(`src/ats_engine.py` line 202). -/
def CandRecord.valid : CandRecord → Bool
  | .dict (some _) (some _) => true
  | _ => false

/-- The candidate loop of `rank_candidates` (`src/ats_engine.py` lines
200-219): skip invalid records and records whose resume embedding cannot be
obtained, score the rest against the job-description vector `jdv`; also count
the embedding-endpoint calls made. -/
def scanCands (emb : List Char → Option Emb) (cos : Emb → Emb → ℚ) (jdv : Emb) :
    List CandRecord → List Ranked × Nat
  | [] => ([], 0)
  | c :: cs =>
    let rest := scanCands emb cos jdv cs
    match c with
    | .dict (some name) (some resume) =>
      match get_embedding_instr emb resume with
      | (none, k) => (rest.1, k + rest.2)
      | (some rv, k) => (⟨name, cos jdv rv, resume⟩ :: rest.1, k + rest.2)
    | _ => rest

/-- One step of the stable descending insertion modelling
`scored_candidates.sort(key=lambda x: x['score'], reverse=True)`
(`src/ats_engine.py` line 222). -/
def insertDesc (x : Ranked) : List Ranked → List Ranked
  | [] => [x]
  | y :: ys => if x.score ≤ y.score then y :: insertDesc x ys else x :: y :: ys

/-- The descending sort by score of `rank_candidates`: a stable insertion
sort (each element is placed after all earlier elements of equal or larger
score), modelling CPython's stable `list.sort` with `reverse=True`. -/
def sortDesc (l : List Ranked) : List Ranked :=
  l.foldl (fun acc x => insertDesc x acc) []

/-- `rank_candidates` (`src/ats_engine.py` lines 170-227), instrumented with
the number of embedding-endpoint calls: blank job description or empty
candidate list return `[]` with no call; a failed job-description embedding
returns `[]` after its call; otherwise the candidate loop runs and the scored
list is sorted by score, descending. -/
def rank_candidates_instr (emb : List Char → Option Emb) (cos : Emb → Emb → ℚ)
    (job_description : List Char) (candidates_data : List CandRecord) :
    List Ranked × Nat :=
  if blank job_description then ([], 0)
  else if candidates_data.isEmpty then ([], 0)
  else
    match get_embedding_instr emb job_description with
    | (none, n) => ([], n)
    | (some jdv, n) =>
      let scanned := scanCands emb cos jdv candidates_data
      (sortDesc scanned.1, n + scanned.2)

/-- `rank_candidates`: the list returned to the caller. -/
def rank_candidates (emb : List Char → Option Emb) (cos : Emb → Emb → ℚ)
    (job_description : List Char) (candidates_data : List CandRecord) :
    List Ranked :=
  (rank_candidates_instr emb cos job_description candidates_data).1

/-!
## Feedback engine (`src/ats_engine.py` lines 232-299 and `src/app.py`)

A chat-completions call is an oracle value: an API error (`openai.APIError`),
another exception, or a completed response whose `message.content` may be
`None`.
-/

/-- Outcome of one `client.chat.completions.create` call. -/
inductive ChatResult where
  | apiError (msg : List Char)
  | exn (msg : List Char)
  | ok (content : Option (List Char))

/-- The f-string user prompt of `generate_compliant_feedback`
(`src/ats_engine.py` lines 269-277). -/
def feedback_user_prompt (job_description candidate_resume : List Char) : List Char :=
  "\n    JOB DESCRIPTION:\n    ".toList ++ job_description ++
    "\n\n    CLEANED CANDIDATE RESUME:\n    ".toList ++ candidate_resume ++
    "\n\n    Write the rejection email.\n    ".toList

/-- `generate_compliant_feedback` (`src/ats_engine.py` lines 232-299),
instrumented with the number of chat-endpoint calls: blank inputs return an
error string with no call; otherwise one call on the templated prompt is made
and failures or missing/empty content yield error strings. -/
def generate_compliant_feedback_instr (chat : List Char → ChatResult)
    (job_description candidate_resume : List Char) : List Char × Nat :=
  if blank job_description then ("Error: Job description is empty".toList, 0)
  else if blank candidate_resume then ("Error: Candidate resume is empty".toList, 0)
  else
    match chat (feedback_user_prompt job_description candidate_resume) with
    | .apiError e => ("OpenAI API Error: ".toList ++ e, 1)
    | .exn e => ("Error generating feedback: ".toList ++ e, 1)
    | .ok none => ("Error: No feedback generated".toList, 1)
    | .ok (some f) =>
      (if f.isEmpty then "Error: No feedback generated".toList else f, 1)

/-- `generate_compliant_feedback`: the string returned to the caller. -/
def generate_compliant_feedback (chat : List Char → ChatResult)
    (job_description candidate_resume : List Char) : List Char :=
  (generate_compliant_feedback_instr chat job_description candidate_resume).1

/-- The dict returned by `generate_compliant_feedback_for_recruiter`
(`src/app.py` lines 146-286). -/
structure RecruiterResult where
  feedback : Option (List Char)
  compliant : Bool
  violations : List (List Char)
  severity : List Char
  recommendation : List Char
  error : Option (List Char)

/-- The f-string user prompt of `generate_compliant_feedback_for_recruiter`
(`src/app.py` lines 214-224). -/
def recruiter_user_prompt (job_description cleaned_resume : List Char) : List Char :=
  "JOB DESCRIPTION:\n".toList ++ job_description ++
    "\n\n---\n\nCANDIDATE RESUME:\n".toList ++ cleaned_resume ++
    "\n\n---\n\nGenerate a professional rejection email following all requirements above. Focus exclusively on technical qualifications and objective criteria.".toList

/-- The retry loop of `generate_compliant_feedback_for_recruiter`
(`src/app.py` lines 226-277).  The chat call on attempt `attempt` is the
oracle value `oracle attempt prompt`; `.error` covers any exception raised in
the loop body, including the `AttributeError` that a `None` message content
triggers inside `check_compliance`.  `remaining` counts the retries left. -/
def recruiterLoop (oracle : Nat → List Char → Except (List Char) (List Char))
    (prompt : List Char) : Nat → Nat → RecruiterResult
  | attempt, remaining =>
    match oracle attempt prompt with
    | .error e =>
      ⟨none, false, [], "none".toList, [], some ("API Error: ".toList ++ e)⟩
    | .ok feedback =>
      let c := check_compliance feedback
      if c.compliant then
        ⟨some feedback, true, [], "none".toList,
          "Feedback passed compliance check.".toList, none⟩
      else
        match remaining with
        | 0 => ⟨some feedback, false, c.violations, c.severity, c.recommendation, none⟩
        | r + 1 => recruiterLoop oracle prompt (attempt + 1) r

/-- `generate_compliant_feedback_for_recruiter` (`src/app.py` lines 146-286):
run the retry loop for `max_retries + 1` attempts on the templated prompt. -/
def generate_compliant_feedback_for_recruiter
    (oracle : Nat → List Char → Except (List Char) (List Char))
    (job_description cleaned_resume : List Char) (max_retries : Nat) :
    RecruiterResult :=
  recruiterLoop oracle (recruiter_user_prompt job_description cleaned_resume)
    0 max_retries

/-!
## Workflow models (`src/app.py` UI scripts)
-/

/-- A Streamlit `UploadedFile`: its (display) name and the raw text its
document contains. -/
structure UploadedFile where
  name : List Char
  content : List Char

/-- `extract_text_from_pdf` (`src/ats_engine.py` lines 50-83) delegates the
whole extraction to the `pypdf` library, so the recruiter workflow below is
parametrised over it; this default model returns the file's raw text. -/
def extract_text_from_pdf (f : UploadedFile) : List Char := f.content

/-- Modelled from the spec: `extract_text_from_docx` is imported from the
engine module and called in `src/app.py` (lines 4-12, 457-467) but its
definition is not among the files under `src/`; the spec lists DOCX text
extraction among the engine operations ("PDF/DOCX text extraction").  We
model it as returning the raw text of the uploaded DOCX file. -/
def extract_text_from_docx (f : UploadedFile) : List Char := f.content

/-- Python `name.endswith(suf)` on character lists. -/
def endsWithL (suf s : List Char) : Bool := decide (suf <:+ s)

/-- The per-file dispatch of the recruiter upload loop (`src/app.py` lines
457-467): lowercase the file name, extract via `extract_text_from_pdf` for
`.pdf` names, via `extract_text_from_docx` for `.docx`/`.doc` names, and skip
(`none`) any other file.  `pdfExtract` abstracts the `pypdf`-backed
extraction. -/
def recruiterProcessFile (pdfExtract : UploadedFile → List Char)
    (f : UploadedFile) : Option (List Char) :=
  if endsWithL ".pdf".toList (lowerL f.name) then some (pdfExtract f)
  else if endsWithL ".docx".toList (lowerL f.name) ||
      endsWithL ".doc".toList (lowerL f.name) then
    some (extract_text_from_docx f)
  else none

/-- `clean_and_structure_resume` (`src/ats_engine.py` lines 88-130): blank
input short-circuits to an error string; otherwise one chat call on the raw
text is made, with errors and missing/empty content mapped to error
strings. -/
def clean_and_structure_resume (chat : List Char → ChatResult)
    (raw_resume_text : List Char) : List Char :=
  if blank raw_resume_text then "Error: Empty resume text provided".toList
  else
    match chat raw_resume_text with
    | .apiError e => ("OpenAI API Error during cleaning: ".toList ++ e)
    | .exn e => ("Unexpected error during cleaning: ".toList ++ e)
    | .ok none => "Error: No content returned from cleaning".toList
    | .ok (some t) =>
      if t.isEmpty then "Error: No content returned from cleaning".toList else t

/-- The f-string user prompt of `generate_applicant_feedback`
(`src/app.py` lines 344-354). -/
def applicant_user_prompt (job_description cleaned_resume : List Char) : List Char :=
  "JOB DESCRIPTION:\n".toList ++ job_description ++
    "\n\n---\n\nCANDIDATE RESUME:\n".toList ++ cleaned_resume ++
    "\n\n---\n\nProvide a bulleted list of specific, actionable improvements to help this candidate strengthen their resume for this role.".toList

/-- `generate_applicant_feedback` (`src/app.py` lines 289-368): one chat call
on the templated prompt; exceptions are mapped to an error string. -/
def generate_applicant_feedback (chat : List Char → Except (List Char) (List Char))
    (job_description cleaned_resume : List Char) : List Char :=
  match chat (applicant_user_prompt job_description cleaned_resume) with
  | .error e => "Error generating feedback: ".toList ++ e
  | .ok s => s

/-- Modelled from the spec: the prompt template of `rewrite_resume`, whose
definition is not among the files under `src/`; the spec lists "prompt
templates for ... resume rewrites" among the engine operations. -/
def rewrite_resume_prompt (job_description cleaned_resume : List Char) : List Char :=
  "JOB DESCRIPTION:\n".toList ++ job_description ++
    "\n\nCLEANED RESUME:\n".toList ++ cleaned_resume ++
    "\n\nRewrite the resume as an optimized version aligned with the job description.".toList

/-- Modelled from the spec: `rewrite_resume` is imported from the engine
module and called in `src/app.py` (lines 4-12, 677-681) but its definition is
not among the files under `src/`; the spec describes it as a prompt-template
operation producing the optimized rewritten resume, so it is one chat call on
the templated prompt. -/
def rewrite_resume (chat : List Char → List Char)
    (job_description cleaned_resume : List Char) : List Char :=
  chat (rewrite_resume_prompt job_description cleaned_resume)

/-- The results displayed by the applicant workflow. -/
structure ApplicantResult where
  cleanedResume : List Char
  score : ℚ
  feedback : List Char
  optimizedResume : List Char

/-- The applicant analysis pipeline (`src/app.py` lines 677-681): clean the
raw resume, compute the fit score, generate improvement feedback, and rewrite
the resume.  `fitScore` abstracts `compute_fit_score`, whose definition is
not among the files under `src/`. -/
def applicantAnalyze (cleanChat : List Char → ChatResult)
    (fitScore : List Char → List Char → ℚ)
    (feedbackChat : List Char → Except (List Char) (List Char))
    (rewriteChat : List Char → List Char)
    (job_description raw_resume : List Char) : ApplicantResult :=
  let cleaned := clean_and_structure_resume cleanChat raw_resume
  { cleanedResume := cleaned
    score := fitScore job_description cleaned
    feedback := generate_applicant_feedback feedbackChat job_description cleaned
    optimizedResume := rewrite_resume rewriteChat job_description cleaned }

/-!
## Helper lemmas: lines, substrings
-/

theorem splitNl_ne_nil (s : List Char) : splitNl s ≠ [] := by
  induction s with
  | nil => simp [splitNl]
  | cons c cs ih =>
    simp only [splitNl]
    split
    · simp
    · split
      · simp
      · simp

theorem not_nl_mem_splitNl (s : List Char) :
    ∀ l ∈ splitNl s, '\n' ∉ l := by
  induction s with
  | nil => intro l hl; simp [splitNl] at hl; simp [hl]
  | cons c cs ih =>
    intro l hl
    simp only [splitNl] at hl
    by_cases hc : c = '\n'
    · rw [if_pos hc, List.mem_cons] at hl
      rcases hl with hl | hl
      · simp [hl]
      · exact ih l hl
    · rw [if_neg hc] at hl
      obtain ⟨l0, ls, hsp⟩ : ∃ l0 ls, splitNl cs = l0 :: ls := by
        rcases hsp : splitNl cs with _ | ⟨a, b⟩
        · exact absurd hsp (splitNl_ne_nil cs)
        · exact ⟨a, b, rfl⟩
      rw [hsp, List.mem_cons] at hl
      rcases hl with hl | hl
      · subst hl
        intro hmem
        rw [List.mem_cons] at hmem
        rcases hmem with hmem | hmem
        · exact hc hmem.symm
        · exact ih l0 (by rw [hsp]; exact List.mem_cons_self _ _) hmem
      · exact ih l (by rw [hsp]; exact List.mem_cons_of_mem _ hl)

theorem splitNl_of_not_nl {l : List Char} (h : '\n' ∉ l) : splitNl l = [l] := by
  induction l with
  | nil => rfl
  | cons c cs ih =>
    have hc : c ≠ '\n' := fun hc => h (hc ▸ List.mem_cons_self _ _)
    have hcs : '\n' ∉ cs := fun hm => h (List.mem_cons_of_mem _ hm)
    simp only [splitNl, if_neg hc, ih hcs]

theorem splitNl_append_nl {l rest : List Char} (h : '\n' ∉ l) :
    splitNl (l ++ '\n' :: rest) = l :: splitNl rest := by
  induction l with
  | nil => simp [splitNl]
  | cons c cs ih =>
    have hc : c ≠ '\n' := fun hc => h (hc ▸ List.mem_cons_self _ _)
    have hcs : '\n' ∉ cs := fun hm => h (List.mem_cons_of_mem _ hm)
    rw [List.cons_append]
    simp only [splitNl, if_neg hc]
    rw [ih hcs]

theorem joinNl_cons_cons (l l₂ : List Char) (ls : List (List Char)) :
    joinNl (l :: l₂ :: ls) = l ++ '\n' :: joinNl (l₂ :: ls) := rfl

theorem splitNl_joinNl : ∀ {ls : List (List Char)}, ls ≠ [] →
    (∀ l ∈ ls, '\n' ∉ l) → splitNl (joinNl ls) = ls
  | [], h, _ => absurd rfl h
  | [l], _, hfree => by
    simpa [joinNl] using splitNl_of_not_nl (hfree l (List.mem_cons_self _ _))
  | l :: l₂ :: ls, _, hfree => by
    rw [joinNl_cons_cons, splitNl_append_nl (hfree l (List.mem_cons_self _ _))]
    have : splitNl (joinNl (l₂ :: ls)) = l₂ :: ls :=
      splitNl_joinNl (by simp) (fun x hx => hfree x (List.mem_cons_of_mem _ hx))
    rw [this]

theorem lowerL_joinNl : ∀ ls : List (List Char),
    lowerL (joinNl ls) = joinNl (ls.map lowerL)
  | [] => rfl
  | [l] => rfl
  | l :: l₂ :: ls => by
    have hnl : Char.toLower '\n' = '\n' := by decide
    simp only [joinNl_cons_cons, lowerL, List.map_append, List.map_cons, hnl,
      List.map_map]
    have := lowerL_joinNl (l₂ :: ls)
    simp only [lowerL, List.map_map] at this
    rw [this]
    rfl

theorem prefix_append_cons_of_not_mem {c : Char} :
    ∀ {t a b : List Char}, c ∉ t → t <+: a ++ c :: b → t <+: a
  | [], _, _, _, _ => List.nil_prefix
  | x :: t', [], b, hc, hp => by
    rw [List.nil_append, List.cons_prefix_cons] at hp
    exact absurd (hp.1 ▸ List.mem_cons_self x t') hc
  | x :: t', y :: a', b, hc, hp => by
    rw [List.cons_append, List.cons_prefix_cons] at hp
    have hct' : c ∉ t' := fun hm => hc (List.mem_cons_of_mem _ hm)
    exact (List.cons_prefix_cons).2 ⟨hp.1, prefix_append_cons_of_not_mem hct' hp.2⟩

theorem infix_append_cons_split {c : Char} {t : List Char} :
    ∀ {a b : List Char}, c ∉ t → t <:+: a ++ c :: b → t <:+: a ∨ t <:+: b
  | [], b, hc, hi => by
    rw [List.nil_append, List.infix_cons_iff] at hi
    rcases hi with hp | hi
    · rcases t with _ | ⟨x, t'⟩
      · exact Or.inl ⟨[], [], rfl⟩
      · rw [List.cons_prefix_cons] at hp
        exact absurd (hp.1 ▸ List.mem_cons_self x t') hc
    · exact Or.inr hi
  | y :: a', b, hc, hi => by
    rw [List.cons_append, List.infix_cons_iff] at hi
    rcases hi with hp | hi
    · have h2 : t <+: y :: a' :=
        prefix_append_cons_of_not_mem hc (by simpa using hp)
      rcases h2 with ⟨r, hr⟩
      exact Or.inl ⟨[], r, by simpa using hr⟩
    · rcases infix_append_cons_split hc hi with h | h
      · exact Or.inl (List.infix_cons h)
      · exact Or.inr h

theorem mem_of_infix_joinNl {t : List Char} (hnl : '\n' ∉ t) :
    ∀ {ls : List (List Char)}, ls ≠ [] → t <:+: joinNl ls →
      ∃ l ∈ ls, t <:+: l
  | [], h, _ => absurd rfl h
  | [l], _, hi => ⟨l, List.mem_cons_self _ _, by simpa [joinNl] using hi⟩
  | l :: l₂ :: ls, _, hi => by
    rw [joinNl_cons_cons] at hi
    rcases infix_append_cons_split hnl hi with h | h
    · exact ⟨l, List.mem_cons_self _ _, h⟩
    · rcases mem_of_infix_joinNl hnl (by simp) h with ⟨l', hl', ht⟩
      exact ⟨l', List.mem_cons_of_mem _ hl', ht⟩

/-!
## Helper lemmas: the descending sort
-/

/-- The descending order on scored candidates used by the sort. -/
def descR (a b : Ranked) : Prop := b.score ≤ a.score

theorem mem_insertDesc {y x : Ranked} :
    ∀ {l : List Ranked}, y ∈ insertDesc x l ↔ y = x ∨ y ∈ l
  | [] => by simp [insertDesc]
  | z :: zs => by
    simp only [insertDesc]
    split
    · rw [List.mem_cons, mem_insertDesc, List.mem_cons]
      tauto
    · simp only [List.mem_cons]

theorem pairwise_insertDesc {x : Ranked} :
    ∀ {l : List Ranked}, l.Pairwise descR → (insertDesc x l).Pairwise descR
  | [], _ => by simp [insertDesc]
  | z :: zs, h => by
    rw [List.pairwise_cons] at h
    simp only [insertDesc]
    split
    · rename_i hxz
      rw [List.pairwise_cons]
      refine ⟨fun w hw => ?_, pairwise_insertDesc h.2⟩
      rcases mem_insertDesc.1 hw with hw | hw
      · exact hw ▸ hxz
      · exact h.1 w hw
    · rename_i hxz
      have hzx : z.score ≤ x.score := le_of_lt (lt_of_not_le hxz)
      rw [List.pairwise_cons]
      refine ⟨fun w hw => ?_, List.pairwise_cons.2 h⟩
      rcases List.mem_cons.1 hw with hw | hw
      · exact hw ▸ hzx
      · exact le_trans (h.1 w hw) hzx

theorem sortDesc_eq_foldl (l : List Ranked) :
    sortDesc l = l.foldl (fun acc x => insertDesc x acc) [] := rfl

theorem mem_foldl_insertDesc {y : Ranked} :
    ∀ {l : List Ranked} {acc : List Ranked},
      y ∈ l.foldl (fun acc x => insertDesc x acc) acc ↔ y ∈ acc ∨ y ∈ l
  | [], acc => by simp
  | x :: xs, acc => by
    rw [List.foldl_cons, mem_foldl_insertDesc, mem_insertDesc]
    simp only [List.mem_cons]
    tauto

theorem mem_sortDesc {y : Ranked} {l : List Ranked} :
    y ∈ sortDesc l ↔ y ∈ l := by
  rw [sortDesc_eq_foldl, mem_foldl_insertDesc]
  simp

theorem pairwise_foldl_insertDesc :
    ∀ {l : List Ranked} {acc : List Ranked}, acc.Pairwise descR →
      (l.foldl (fun acc x => insertDesc x acc) acc).Pairwise descR
  | [], _, h => h
  | x :: xs, acc, h => by
    rw [List.foldl_cons]
    exact pairwise_foldl_insertDesc (pairwise_insertDesc h)

/-- The list built by `sortDesc` is sorted by score, descending: every
adjacent pair of entries has a non-increasing score. -/
theorem chain'_sortDesc (l : List Ranked) :
    (sortDesc l).Chain' descR := by
  rw [sortDesc_eq_foldl]
  exact (pairwise_foldl_insertDesc List.Pairwise.nil).chain'

/-!
## Helper lemmas: compliance checker characterisation
-/

/-- The recommendation string `check_compliance` derives from a severity. -/
def recommendationOf (severity : List Char) : List Char :=
  if severity = "none".toList then
    "Feedback passed compliance check.".toList
  else if severity = "low".toList then
    "Review feedback for soft skills language. Consider focusing only on technical qualifications.".toList
  else
    "CRITICAL: Feedback contains prohibited discriminatory language. Do not send. Regenerate with stricter constraints.".toList

theorem check_ord_violations (terms : List (List Char)) (text : List Char) :
    (check_compliance_ord terms text).violations = terms.filter (violCond text) := rfl

theorem check_ord_compliant (terms : List (List Char)) (text : List Char) :
    (check_compliance_ord terms text).compliant =
      (terms.filter (violCond text)).isEmpty := rfl

theorem check_ord_severity (terms : List (List Char)) (text : List Char) :
    (check_compliance_ord terms text).severity =
      severityOf (terms.filter (violCond text)) := rfl

theorem check_ord_recommendation (terms : List (List Char)) (text : List Char) :
    (check_compliance_ord terms text).recommendation =
      recommendationOf (severityOf (terms.filter (violCond text))) := rfl

theorem violCond_iff (text term : List Char) :
    violCond text term = true ↔ unexcused term text := by
  simp [violCond, unexcused, List.any_eq_true]

theorem perm_any {α : Type} {l₁ l₂ : List α} (h : l₁.Perm l₂) (p : α → Bool) :
    l₁.any p = l₂.any p := by
  cases hb : l₂.any p
  · rw [List.any_eq_false] at hb ⊢
    exact fun x hx => hb x (h.mem_iff.1 hx)
  · rw [List.any_eq_true] at hb ⊢
    rcases hb with ⟨x, hx, hpx⟩
    exact ⟨x, h.mem_iff.2 hx, hpx⟩

theorem perm_isEmpty {α : Type} {l₁ l₂ : List α} (h : l₁.Perm l₂) :
    l₁.isEmpty = l₂.isEmpty := by
  rcases l₁ with _ | ⟨a, l⟩
  · rw [h.symm.eq_nil]
  · rcases l₂ with _ | ⟨b, m⟩
    · exact absurd h.eq_nil (by simp)
    · rfl

/-!
## Helper lemmas: the candidate scan
-/

/-- A candidate record for which the loop body of `rank_candidates` reaches
the embedding endpoint: a dict with both keys whose resume text is not
blank. -/
def processedCand : CandRecord → Bool
  | .dict (some _) (some r) => ! blank r
  | _ => false

theorem mem_scanCands {emb : List Char → Option Emb} {cos : Emb → Emb → ℚ}
    {jdv : Emb} :
    ∀ {cs : List CandRecord} {x : Ranked}, x ∈ (scanCands emb cos jdv cs).1 →
      CandRecord.dict (some x.name) (some x.resume) ∈ cs ∧
        ∃ rv, get_embedding emb x.resume = some rv ∧ x.score = cos jdv rv := by
  intro cs
  induction cs with
  | nil => intro x hx; simp [scanCands] at hx
  | cons c cs ih =>
    intro x hx
    rcases c with ⟨name?, resume?⟩ | _
    · rcases name? with _ | name
      · rcases ih hx with ⟨hmem, hrest⟩
        exact ⟨List.mem_cons_of_mem _ hmem, hrest⟩
      · rcases resume? with _ | resume
        · rcases ih hx with ⟨hmem, hrest⟩
          exact ⟨List.mem_cons_of_mem _ hmem, hrest⟩
        · simp only [scanCands] at hx
          rcases hge : get_embedding_instr emb resume with ⟨o, k⟩
          rw [hge] at hx
          rcases o with _ | rv
          · rcases ih hx with ⟨hmem, hrest⟩
            exact ⟨List.mem_cons_of_mem _ hmem, hrest⟩
          · rw [List.mem_cons] at hx
            rcases hx with hx | hx
            · subst hx
              refine ⟨List.mem_cons_self _ _, rv, ?_, rfl⟩
              rw [get_embedding, hge]
            · rcases ih hx with ⟨hmem, hrest⟩
              exact ⟨List.mem_cons_of_mem _ hmem, hrest⟩
    · rcases ih hx with ⟨hmem, hrest⟩
      exact ⟨List.mem_cons_of_mem _ hmem, hrest⟩

theorem scanCands_count {emb : List Char → Option Emb} {cos : Emb → Emb → ℚ}
    {jdv : Emb} :
    ∀ cs : List CandRecord,
      (scanCands emb cos jdv cs).2 = cs.countP processedCand := by
  intro cs
  induction cs with
  | nil => rfl
  | cons c cs ih =>
    rcases c with ⟨name?, resume?⟩ | _
    · rcases name? with _ | name
      · simpa [scanCands, List.countP_cons, processedCand] using ih
      · rcases resume? with _ | resume
        · simpa [scanCands, List.countP_cons, processedCand] using ih
        · simp only [scanCands]
          by_cases hb : blank resume
          · have hge : get_embedding_instr emb resume = (none, 0) := by
              simp [get_embedding_instr, hb]
            rw [hge]
            simp [List.countP_cons, processedCand, hb, ih]
          · have hge : get_embedding_instr emb resume =
                (emb (prepEmbText resume), 1) := by
              simp [get_embedding_instr, hb]
            rw [hge]
            rcases ho : emb (prepEmbText resume) with _ | rv
            · simp [List.countP_cons, processedCand, hb, ih, Nat.add_comm]
            · simp [List.countP_cons, processedCand, hb, ih, Nat.add_comm]
    · simpa [scanCands, List.countP_cons, processedCand] using ih

/-!
## Concrete facts about the fixed vocabulary, by evaluation
-/

set_option maxRecDepth 8000 in
theorem terms_not_nl : ∀ t ∈ prohibited_terms, '\n' ∉ t := by decide

set_option maxRecDepth 8000 in
theorem removedLineComment_not_nl : '\n' ∉ removedLineComment := by decide

set_option maxRecDepth 100000 in
theorem removedLineComment_clean :
    ∀ t ∈ prohibited_terms, ¬ t <:+: lowerL removedLineComment := by decide

/-!
## Claim theorems
-/

/-- C2: for every feedback text, `check_compliance` returns
`compliant = true` exactly when no prohibited term occurs as a substring of
the lowercased feedback text without being excused by the allowed-context
rules, and the violations list contains exactly the prohibited terms that so
occur unexcused — a pure set-membership substring scan over the fixed word
list. -/
theorem claim_C2_check_compliance (text : List Char) :
    ((check_compliance text).compliant = true ↔
      ∀ term ∈ prohibited_terms, ¬ unexcused term text) ∧
    (∀ term, term ∈ (check_compliance text).violations ↔
      term ∈ prohibited_terms ∧ unexcused term text) := by
  constructor
  · rw [check_compliance, check_ord_compliant, List.isEmpty_eq_true,
      List.filter_eq_nil_iff]
    constructor
    · intro h term ht hu
      exact h term ht ((violCond_iff text term).2 hu)
    · intro h term ht hv
      exact h term ht ((violCond_iff text term).1 hv)
  · intro term
    rw [check_compliance, check_ord_violations, List.mem_filter,
      violCond_iff]

/-- C10: `check_compliance` is deterministic over its fixed vocabulary: two
runs on the same feedback text — each iterating the prohibited-terms set in
some order, i.e. some permutation of the fixed list — return the same
compliant flag, the same set of violations, the same severity and the same
recommendation. -/
theorem claim_C10_deterministic (text : List Char) (o₁ o₂ : List (List Char))
    (h₁ : o₁.Perm prohibited_terms) (h₂ : o₂.Perm prohibited_terms) :
    (check_compliance_ord o₁ text).compliant =
        (check_compliance_ord o₂ text).compliant ∧
    (∀ t, t ∈ (check_compliance_ord o₁ text).violations ↔
        t ∈ (check_compliance_ord o₂ text).violations) ∧
    (check_compliance_ord o₁ text).severity =
        (check_compliance_ord o₂ text).severity ∧
    (check_compliance_ord o₁ text).recommendation =
        (check_compliance_ord o₂ text).recommendation := by
  have hp : (o₁.filter (violCond text)).Perm (o₂.filter (violCond text)) :=
    (h₁.trans h₂.symm).filter _
  have hse : severityOf (o₁.filter (violCond text)) =
      severityOf (o₂.filter (violCond text)) := by
    rw [severityOf, severityOf, perm_isEmpty hp, perm_any hp]
  refine ⟨?_, ?_, ?_, ?_⟩
  · rw [check_ord_compliant, check_ord_compliant, perm_isEmpty hp]
  · intro t
    rw [check_ord_violations, check_ord_violations]
    exact hp.mem_iff
  · rw [check_ord_severity, check_ord_severity, hse]
  · rw [check_ord_recommendation, check_ord_recommendation, hse]

/-- Witness for C10: a concrete second iteration order (the reversed list) on
a concrete feedback text. -/
theorem claim_C10_deterministic_witness :
    (prohibited_terms.reverse.Perm prohibited_terms ∧
      prohibited_terms.Perm prohibited_terms) ∧
    ((check_compliance_ord prohibited_terms.reverse "he is old".toList).compliant =
        (check_compliance_ord prohibited_terms "he is old".toList).compliant ∧
      (∀ t, t ∈ (check_compliance_ord prohibited_terms.reverse "he is old".toList).violations ↔
        t ∈ (check_compliance_ord prohibited_terms "he is old".toList).violations) ∧
      (check_compliance_ord prohibited_terms.reverse "he is old".toList).severity =
        (check_compliance_ord prohibited_terms "he is old".toList).severity ∧
      (check_compliance_ord prohibited_terms.reverse "he is old".toList).recommendation =
        (check_compliance_ord prohibited_terms "he is old".toList).recommendation) :=
  ⟨⟨List.reverse_perm _, List.Perm.refl _⟩,
    claim_C10_deterministic "he is old".toList _ _
      (List.reverse_perm _) (List.Perm.refl _)⟩

theorem sanitized_lines_clean {text : List Char} :
    ∀ l ∈ (splitNl text).map sanitizeLine,
      ∀ term ∈ prohibited_terms, ¬ term <:+: lowerL l := by
  intro l hl term hterm
  rcases List.mem_map.1 hl with ⟨line, _, hline⟩
  subst hline
  rw [sanitizeLine]
  split
  · exact removedLineComment_clean term hterm
  · rename_i hcond
    rw [List.any_eq_true] at hcond
    push_neg at hcond
    intro hinf
    exact absurd (decide_eq_true_iff.2 hinf) (hcond term hterm)

theorem sanitized_lines_not_nl {text : List Char} :
    ∀ l ∈ (splitNl text).map sanitizeLine, '\n' ∉ l := by
  intro l hl
  rcases List.mem_map.1 hl with ⟨line, hmem, hline⟩
  subst hline
  rw [sanitizeLine]
  split
  · exact removedLineComment_not_nl
  · exact not_nl_mem_splitNl text line hmem

theorem sanitized_map_ne_nil (text : List Char) :
    (splitNl text).map sanitizeLine ≠ [] := by
  intro h
  exact splitNl_ne_nil text (List.map_eq_nil_iff.1 h)

/-- No prohibited term occurs in the lowercased sanitized text. -/
theorem sanitize_no_term (text : List Char) :
    ∀ term ∈ prohibited_terms, ¬ term <:+: lowerL (sanitize_feedback text) := by
  intro term hterm hinf
  rw [sanitize_feedback, lowerL_joinNl] at hinf
  have hmaps : ((splitNl text).map sanitizeLine).map lowerL ≠ [] := by
    intro h
    exact sanitized_map_ne_nil text (List.map_eq_nil_iff.1 h)
  rcases mem_of_infix_joinNl (terms_not_nl term hterm) hmaps hinf with ⟨ll, hll, htll⟩
  rcases List.mem_map.1 hll with ⟨l, hlmem, hl⟩
  subst hl
  exact sanitized_lines_clean l hlmem term hterm htll

/-- C8: the output of `sanitize_feedback` passes `check_compliance` with
`compliant = true` (every line of it either contains no prohibited term or is
the fixed placeholder comment, which itself contains none), and consequently
`sanitize_feedback` is idempotent. -/
theorem claim_C8_sanitize (text : List Char) :
    (check_compliance (sanitize_feedback text)).compliant = true ∧
    sanitize_feedback (sanitize_feedback text) = sanitize_feedback text := by
  constructor
  · rw [check_compliance, check_ord_compliant, List.isEmpty_eq_true,
      List.filter_eq_nil_iff]
    intro term hterm hv
    have hu := (violCond_iff _ term).1 hv
    exact sanitize_no_term text term hterm hu.1
  · have hsplit : splitNl (sanitize_feedback text) =
        (splitNl text).map sanitizeLine := by
      rw [sanitize_feedback]
      exact splitNl_joinNl (sanitized_map_ne_nil text) sanitized_lines_not_nl
    have hkeep : ((splitNl text).map sanitizeLine).map sanitizeLine =
        (splitNl text).map sanitizeLine := by
      have : ∀ l ∈ (splitNl text).map sanitizeLine, sanitizeLine l = id l := by
        intro l hl
        have hcond : (prohibited_terms.any fun term =>
            decide (term <:+: lowerL l)) = false := by
          rw [List.any_eq_false]
          intro term hterm hdec
          exact sanitized_lines_clean l hl term hterm (decide_eq_true_iff.1 hdec)
        simp [sanitizeLine, hcond]
      rw [List.map_congr_left this, List.map_id]
    conv_lhs => rw [sanitize_feedback, hsplit, hkeep]
    rw [sanitize_feedback]

theorem rank_candidates_cases (emb : List Char → Option Emb)
    (cos : Emb → Emb → ℚ) (jd : List Char) (cands : List CandRecord) :
    rank_candidates emb cos jd cands = [] ∨
      ∃ jdv, get_embedding emb jd = some jdv ∧
        rank_candidates emb cos jd cands =
          sortDesc (scanCands emb cos jdv cands).1 := by
  rw [rank_candidates, rank_candidates_instr]
  by_cases hb : blank jd
  · rw [if_pos hb]
    exact Or.inl rfl
  · rw [if_neg hb]
    by_cases hc : cands.isEmpty
    · rw [if_pos hc]
      exact Or.inl rfl
    · rw [if_neg hc]
      rcases hge : get_embedding_instr emb jd with ⟨o, n⟩
      rcases o with _ | jdv
      · exact Or.inl rfl
      · exact Or.inr ⟨jdv, by rw [get_embedding, hge], rfl⟩

/-- C1: for every non-empty job description and every list of candidate
records, `rank_candidates` returns a list sorted in descending order of score
(adjacent scores are non-increasing), and each entry's score is the cosine
similarity — the `cos` oracle applied to the embeddings returned by the
embedding oracle — of the job description and that candidate's resume
text. -/
theorem claim_C1_rank_sorted (emb : List Char → Option Emb)
    (cos : Emb → Emb → ℚ) (jd : List Char) (cands : List CandRecord)
    (_hjd : jd ≠ []) :
    (rank_candidates emb cos jd cands).Chain' descR ∧
    ∀ x ∈ rank_candidates emb cos jd cands, ∃ jdv rv,
      get_embedding emb jd = some jdv ∧
      get_embedding emb x.resume = some rv ∧
      x.score = cos jdv rv := by
  rcases rank_candidates_cases emb cos jd cands with h | ⟨jdv, hjdv, h⟩
  · rw [h]
    exact ⟨List.chain'_nil, by intro x hx; cases hx⟩
  · rw [h]
    refine ⟨chain'_sortDesc _, ?_⟩
    intro x hx
    rcases mem_scanCands (mem_sortDesc.1 hx) with ⟨_, rv, hrv, hsc⟩
    exact ⟨jdv, rv, hjdv, hrv, hsc⟩

/-- A concrete embedding oracle for witnesses: every text embeds to `[1]`. -/
def embW : List Char → Option Emb := fun _ => some ([1] : List ℚ)

/-- A concrete cosine oracle for witnesses: every pair scores `0`. -/
def cosW : Emb → Emb → ℚ := fun _ _ => 0

/-- A concrete valid candidate record for witnesses. -/
def candW : CandRecord :=
  CandRecord.dict (some "alice.pdf".toList) (some "python developer".toList)

/-- Witness for C1 at a concrete job description and candidate list. -/
theorem claim_C1_rank_sorted_witness :
    "financial officer".toList ≠ ([] : List Char) ∧
    ((rank_candidates embW cosW "financial officer".toList [candW]).Chain' descR ∧
      ∀ x ∈ rank_candidates embW cosW "financial officer".toList [candW],
        ∃ jdv rv, get_embedding embW "financial officer".toList = some jdv ∧
          get_embedding embW x.resume = some rv ∧ x.score = cosW jdv rv) :=
  ⟨by decide, claim_C1_rank_sorted embW cosW _ [candW] (by decide)⟩

/-- C9: `rank_candidates` never raises and degrades to the empty list: a
blank job description, an empty candidate list, or a failed job-description
embedding give `[]`; invalid candidate records and candidates whose resume
embedding cannot be obtained are skipped, so every output entry corresponds
to a valid input candidate (a dict with both keys) with name and resume
unchanged. -/
theorem claim_C9_rank_degrades (emb : List Char → Option Emb)
    (cos : Emb → Emb → ℚ) (jd : List Char) (cands : List CandRecord) :
    (blank jd = true → rank_candidates emb cos jd cands = []) ∧
    (cands = [] → rank_candidates emb cos jd cands = []) ∧
    (get_embedding emb jd = none → rank_candidates emb cos jd cands = []) ∧
    (∀ x ∈ rank_candidates emb cos jd cands,
      CandRecord.dict (some x.name) (some x.resume) ∈ cands ∧
        get_embedding emb x.resume ≠ none) := by
  refine ⟨?_, ?_, ?_, ?_⟩
  · intro hb
    rw [rank_candidates, rank_candidates_instr, if_pos hb]
  · intro hc
    subst hc
    rw [rank_candidates, rank_candidates_instr]
    by_cases hb : blank jd
    · rw [if_pos hb]
    · rw [if_neg hb]
      rfl
  · intro hnone
    rw [rank_candidates, rank_candidates_instr]
    by_cases hb : blank jd
    · rw [if_pos hb]
    · rw [if_neg hb]
      by_cases hc : cands.isEmpty
      · rw [if_pos hc]
      · rw [if_neg hc]
        rcases hge : get_embedding_instr emb jd with ⟨o, n⟩
        rcases o with _ | jdv
        · rfl
        · rw [get_embedding, hge] at hnone
          cases hnone
  · intro x hx
    rcases rank_candidates_cases emb cos jd cands with h | ⟨jdv, _, h⟩
    · rw [h] at hx
      cases hx
    · rw [h] at hx
      rcases mem_scanCands (mem_sortDesc.1 hx) with ⟨hmem, rv, hrv, _⟩
      exact ⟨hmem, by rw [hrv]; intro hfalse; cases hfalse⟩

/-- Witness for C9 at concrete inputs: a blank job description yields `[]`,
and the skipping clause holds on a concrete output entry. -/
theorem claim_C9_rank_degrades_witness :
    blank "   ".toList = true ∧
    rank_candidates embW cosW "   ".toList [candW] = [] :=
  ⟨by decide, (claim_C9_rank_degrades embW cosW "   ".toList [candW]).1 (by decide)⟩

/-- C4 counterexample: with a non-blank job description and one valid
candidate, the ranking run makes two embedding-endpoint calls (one for the
job description and one for the candidate's resume), not a single call. -/
theorem claim_C4_counterexample :
    blank "financial officer".toList = false ∧
    ([candW] : List CandRecord) ≠ [] ∧
    (rank_candidates_instr embW cosW "financial officer".toList [candW]).2 ≠ 1 ∧
    (rank_candidates_instr embW cosW "financial officer".toList [candW]).2 = 2 := by
  refine ⟨?_, ?_, ?_, ?_⟩
  · decide
  · decide
  · decide
  · rfl

/-- C4 amended: for a non-blank job description and a non-empty candidate
list, the ranking engine makes one embedding-endpoint call for the job
description plus — when that call returns a vector — one further call per
candidate record that is a dict with both keys and a non-blank resume,
followed by a cosine-similarity sort (the returned list has non-increasing
scores). -/
theorem claim_C4_amended (emb : List Char → Option Emb) (cos : Emb → Emb → ℚ)
    (jd : List Char) (cands : List CandRecord)
    (h1 : blank jd = false) (h2 : cands ≠ []) :
    (rank_candidates_instr emb cos jd cands).2 =
      1 + (if (get_embedding emb jd).isSome then cands.countP processedCand
           else 0) ∧
    (rank_candidates_instr emb cos jd cands).1.Chain' descR := by
  have hc : cands.isEmpty = false := List.isEmpty_eq_false.2 h2
  rw [rank_candidates_instr, if_neg (by rw [h1]; intro h; cases h), if_neg
    (by rw [hc]; intro h; cases h)]
  have hge : get_embedding_instr emb jd = (emb (prepEmbText jd), 1) := by
    rw [get_embedding_instr, if_neg (by rw [h1]; intro h; cases h)]
  rw [hge]
  have hgev : get_embedding emb jd = emb (prepEmbText jd) := by
    rw [get_embedding, hge]
  rcases ho : emb (prepEmbText jd) with _ | jdv
  · rw [ho] at hgev
    refine ⟨?_, ?_⟩
    · rw [hgev]
      rfl
    · exact List.chain'_nil
  · rw [ho] at hgev
    refine ⟨?_, ?_⟩
    · rw [hgev]
      show 1 + (scanCands emb cos jdv cands).2 =
        1 + cands.countP processedCand
      rw [scanCands_count]
    · exact chain'_sortDesc _

/-- Witness for C4 amended at concrete inputs. -/
theorem claim_C4_amended_witness :
    blank "financial officer".toList = false ∧
    ([candW] : List CandRecord) ≠ [] ∧
    ((rank_candidates_instr embW cosW "financial officer".toList [candW]).2 =
      1 + (if (get_embedding embW "financial officer".toList).isSome then
        ([candW] : List CandRecord).countP processedCand else 0) ∧
      (rank_candidates_instr embW cosW "financial officer".toList [candW]).1.Chain' descR) :=
  ⟨by decide, by decide,
    claim_C4_amended embW cosW _ [candW] (by decide) (by decide)⟩

/-- C6: `generate_compliant_feedback` never raises (it is a total function):
a blank job description or resume returns an error string without calling the
chat endpoint, and otherwise it performs a single string-template prompt of
the chat endpoint, returning an error string rather than raising when the
call fails or yields no content. -/
theorem claim_C6_feedback_no_raise (chat : List Char → ChatResult)
    (jd res : List Char) :
    (blank jd = true →
      generate_compliant_feedback_instr chat jd res =
        ("Error: Job description is empty".toList, 0)) ∧
    (blank jd = false → blank res = true →
      generate_compliant_feedback_instr chat jd res =
        ("Error: Candidate resume is empty".toList, 0)) ∧
    (blank jd = false → blank res = false →
      (generate_compliant_feedback_instr chat jd res).2 = 1 ∧
      (∀ e, chat (feedback_user_prompt jd res) = ChatResult.apiError e →
        (generate_compliant_feedback_instr chat jd res).1 =
          "OpenAI API Error: ".toList ++ e) ∧
      (∀ e, chat (feedback_user_prompt jd res) = ChatResult.exn e →
        (generate_compliant_feedback_instr chat jd res).1 =
          "Error generating feedback: ".toList ++ e) ∧
      (chat (feedback_user_prompt jd res) = ChatResult.ok none →
        (generate_compliant_feedback_instr chat jd res).1 =
          "Error: No feedback generated".toList) ∧
      (chat (feedback_user_prompt jd res) = ChatResult.ok (some []) →
        (generate_compliant_feedback_instr chat jd res).1 =
          "Error: No feedback generated".toList)) := by
  refine ⟨?_, ?_, ?_⟩
  · intro hb
    rw [generate_compliant_feedback_instr, if_pos hb]
  · intro hb hr
    rw [generate_compliant_feedback_instr,
      if_neg (by rw [hb]; exact Bool.false_ne_true), if_pos hr]
  · intro hb hr
    have hdef : generate_compliant_feedback_instr chat jd res =
        match chat (feedback_user_prompt jd res) with
        | .apiError e => ("OpenAI API Error: ".toList ++ e, 1)
        | .exn e => ("Error generating feedback: ".toList ++ e, 1)
        | .ok none => ("Error: No feedback generated".toList, 1)
        | .ok (some f) =>
          (if f.isEmpty then "Error: No feedback generated".toList else f, 1) := by
      rw [generate_compliant_feedback_instr,
        if_neg (by rw [hb]; exact Bool.false_ne_true),
        if_neg (by rw [hr]; exact Bool.false_ne_true)]
    refine ⟨?_, ?_, ?_, ?_, ?_⟩
    · rcases hc : chat (feedback_user_prompt jd res) with e | e | o
      · rw [hdef, hc]
      · rw [hdef, hc]
      · rcases o with _ | f
        · rw [hdef, hc]
        · rw [hdef, hc]
    · intro e hc
      rw [hdef, hc]
    · intro e hc
      rw [hdef, hc]
    · intro hc
      rw [hdef, hc]
    · intro hc
      rw [hdef, hc]
      rfl

/-- A concrete chat oracle for the C6 witness: the call yields no content. -/
def chatW : List Char → ChatResult := fun _ => ChatResult.ok none

/-- Witness for C6 at concrete non-blank inputs with a no-content chat
outcome. -/
theorem claim_C6_feedback_no_raise_witness :
    blank "sales role".toList = false ∧
    blank "resume text".toList = false ∧
    ((generate_compliant_feedback_instr chatW "sales role".toList "resume text".toList).2 = 1 ∧
      (∀ e, chatW (feedback_user_prompt "sales role".toList "resume text".toList) =
          ChatResult.apiError e →
        (generate_compliant_feedback_instr chatW "sales role".toList "resume text".toList).1 =
          "OpenAI API Error: ".toList ++ e) ∧
      (∀ e, chatW (feedback_user_prompt "sales role".toList "resume text".toList) =
          ChatResult.exn e →
        (generate_compliant_feedback_instr chatW "sales role".toList "resume text".toList).1 =
          "Error generating feedback: ".toList ++ e) ∧
      (chatW (feedback_user_prompt "sales role".toList "resume text".toList) =
          ChatResult.ok none →
        (generate_compliant_feedback_instr chatW "sales role".toList "resume text".toList).1 =
          "Error: No feedback generated".toList) ∧
      (chatW (feedback_user_prompt "sales role".toList "resume text".toList) =
          ChatResult.ok (some []) →
        (generate_compliant_feedback_instr chatW "sales role".toList "resume text".toList).1 =
          "Error: No feedback generated".toList)) :=
  ⟨by decide, by decide,
    (claim_C6_feedback_no_raise chatW "sales role".toList "resume text".toList).2.2
      (by decide) (by decide)⟩

theorem recruiterLoop_invariant
    (oracle : Nat → List Char → Except (List Char) (List Char))
    (prompt : List Char) :
    ∀ remaining attempt,
      ((recruiterLoop oracle prompt attempt remaining).compliant = true →
        (recruiterLoop oracle prompt attempt remaining).violations = [] ∧
        (recruiterLoop oracle prompt attempt remaining).error = none ∧
        ∃ f, (recruiterLoop oracle prompt attempt remaining).feedback = some f ∧
          (check_compliance f).compliant = true ∧
          (check_compliance f).violations = []) ∧
      ((recruiterLoop oracle prompt attempt remaining).feedback = none ↔
        (recruiterLoop oracle prompt attempt remaining).error.isSome = true) := by
  intro remaining
  induction remaining with
  | zero =>
    intro attempt
    rw [recruiterLoop]
    rcases ho : oracle attempt prompt with e | f
    · dsimp only
      refine ⟨fun h => (Bool.false_ne_true h).elim, ?_⟩
      simp
    · dsimp only
      by_cases hcf : (check_compliance f).compliant = true
      · rw [if_pos hcf]
        refine ⟨fun _ => ⟨rfl, rfl, f, rfl, hcf, ?_⟩, by simp⟩
        rw [check_compliance, check_ord_compliant, List.isEmpty_eq_true] at hcf
        rw [check_compliance, check_ord_violations, hcf]
      · rw [if_neg hcf]
        refine ⟨fun h => (Bool.false_ne_true h).elim, ?_⟩
        simp
  | succ r ih =>
    intro attempt
    rw [recruiterLoop]
    rcases ho : oracle attempt prompt with e | f
    · dsimp only
      refine ⟨fun h => (Bool.false_ne_true h).elim, ?_⟩
      simp
    · dsimp only
      by_cases hcf : (check_compliance f).compliant = true
      · rw [if_pos hcf]
        refine ⟨fun _ => ⟨rfl, rfl, f, rfl, hcf, ?_⟩, by simp⟩
        rw [check_compliance, check_ord_compliant, List.isEmpty_eq_true] at hcf
        rw [check_compliance, check_ord_violations, hcf]
      · rw [if_neg hcf]
        exact ih (attempt + 1)

/-- C7: every dict returned by `generate_compliant_feedback_for_recruiter`
satisfies the invariant: when its compliant field is true, its violations
list is empty, its error field is `None`, and its feedback text is classified
by `check_compliance` as having no violations; and its feedback field is
`None` exactly when its error field carries an error message. -/
theorem claim_C7_recruiter_invariant
    (oracle : Nat → List Char → Except (List Char) (List Char))
    (jd cleaned : List Char) (max_retries : Nat) :
    ((generate_compliant_feedback_for_recruiter oracle jd cleaned max_retries).compliant = true →
      (generate_compliant_feedback_for_recruiter oracle jd cleaned max_retries).violations = [] ∧
      (generate_compliant_feedback_for_recruiter oracle jd cleaned max_retries).error = none ∧
      ∃ f, (generate_compliant_feedback_for_recruiter oracle jd cleaned max_retries).feedback = some f ∧
        (check_compliance f).compliant = true ∧
        (check_compliance f).violations = []) ∧
    ((generate_compliant_feedback_for_recruiter oracle jd cleaned max_retries).feedback = none ↔
      (generate_compliant_feedback_for_recruiter oracle jd cleaned max_retries).error.isSome = true) :=
  recruiterLoop_invariant oracle (recruiter_user_prompt jd cleaned) max_retries 0

/-- A concrete chat oracle for the C7 witness: every attempt yields a short
compliant text. -/
def oracleW : Nat → List Char → Except (List Char) (List Char) :=
  fun _ _ => Except.ok "Good luck with your search.".toList

/-- Witness for C7: a concrete compliant run. -/
theorem claim_C7_recruiter_invariant_witness :
    (generate_compliant_feedback_for_recruiter oracleW "jd".toList "res".toList 2).compliant = true ∧
    ((generate_compliant_feedback_for_recruiter oracleW "jd".toList "res".toList 2).violations = [] ∧
      (generate_compliant_feedback_for_recruiter oracleW "jd".toList "res".toList 2).error = none ∧
      ∃ f, (generate_compliant_feedback_for_recruiter oracleW "jd".toList "res".toList 2).feedback = some f ∧
        (check_compliance f).compliant = true ∧
        (check_compliance f).violations = []) :=
  ⟨by decide,
    (claim_C7_recruiter_invariant oracleW "jd".toList "res".toList 2).1 (by decide)⟩

/-- C3: every uploaded file whose (lowercased) name ends in `.docx` or `.doc`
is routed by the recruiter workflow to the engine module's
`extract_text_from_docx`, which extracts the file's raw text. -/
theorem claim_C3_docx_dispatch (pdfExtract : UploadedFile → List Char)
    (f : UploadedFile)
    (h : endsWithL ".docx".toList (lowerL f.name) = true ∨
      endsWithL ".doc".toList (lowerL f.name) = true) :
    recruiterProcessFile pdfExtract f = some (extract_text_from_docx f) := by
  have hnotpdf : ¬ endsWithL ".pdf".toList (lowerL f.name) = true := by
    rw [endsWithL, decide_eq_true_iff]
    intro hpdf
    rcases hpdf with ⟨u, hu⟩
    have h1 : (lowerL f.name).getLast? = some 'f' := by
      rw [← hu, List.getLast?_append]
      rfl
    rcases h with h | h
    · rw [endsWithL, decide_eq_true_iff] at h
      rcases h with ⟨t, ht⟩
      have h2 : (lowerL f.name).getLast? = some 'x' := by
        rw [← ht, List.getLast?_append]
        rfl
      rw [h1] at h2
      exact absurd h2 (by decide)
    · rw [endsWithL, decide_eq_true_iff] at h
      rcases h with ⟨t, ht⟩
      have h2 : (lowerL f.name).getLast? = some 'c' := by
        rw [← ht, List.getLast?_append]
        rfl
      rw [h1] at h2
      exact absurd h2 (by decide)
  rw [recruiterProcessFile, if_neg hnotpdf, if_pos (by
    rw [Bool.or_eq_true]
    exact h)]

/-- A concrete uploaded file for the C3 witness (mixed-case `.DOCX` name). -/
def fileW : UploadedFile :=
  ⟨"Resume.DOCX".toList, "experienced accountant resume text".toList⟩

/-- Witness for C3 at a concrete `.DOCX` upload. -/
theorem claim_C3_docx_dispatch_witness :
    (endsWithL ".docx".toList (lowerL fileW.name) = true ∨
      endsWithL ".doc".toList (lowerL fileW.name) = true) ∧
    recruiterProcessFile extract_text_from_pdf fileW =
      some (extract_text_from_docx fileW) :=
  ⟨Or.inl (by decide),
    claim_C3_docx_dispatch extract_text_from_pdf fileW (Or.inl (by decide))⟩

/-- C5: for every job description and cleaned resume, the applicant workflow
produces its optimized rewritten resume via the engine module's
`rewrite_resume`, which is a prompt-template operation (one chat call on the
templated prompt). -/
theorem claim_C5_rewrite_resume (cleanChat : List Char → ChatResult)
    (fitScore : List Char → List Char → ℚ)
    (feedbackChat : List Char → Except (List Char) (List Char))
    (rewriteChat : List Char → List Char) (jd raw : List Char) :
    (applicantAnalyze cleanChat fitScore feedbackChat rewriteChat jd raw).optimizedResume =
      rewrite_resume rewriteChat jd (clean_and_structure_resume cleanChat raw) ∧
    (∀ jd2 res2, rewrite_resume rewriteChat jd2 res2 =
      rewriteChat (rewrite_resume_prompt jd2 res2)) :=
  ⟨rfl, fun _ _ => rfl⟩

end ATS
